import Mathlib

/-!
Verification of `src/spanned.rs`: the `Spanned` trait and its span-aggregation
helper `join_spans`.

The Rust module provides, for every syntax tree node that implements
`ToTokens`, a `span()` method returning a `proc_macro2::Span` covering the
node's complete contents.  The implementation lowers the node to its token
stream, filters out tokens whose span's Debug rendering ends with
`"bytes(0..0)"` (a degenerate placeholder), and folds the remaining spans:
under `cfg(procmacro2_semver_exempt)` each subsequent span is joined into an
accumulator via `Span::join` (failures leave the accumulator unchanged);
otherwise only the first span is kept.  An empty filtered sequence yields
`Span::call_site()`.

Embedding choices:
* a `proc_macro2::Span` (an external collaborator) is modelled by its byte
  range `lo..hi`, the data its Debug rendering exposes;
* Rust strings are modelled as `List Char`; the Debug rendering
  `format!("{:?}", span)` is modelled by `span_debug`, producing the
  character sequence `bytes(lo..hi)` exactly as proc-macro2's fallback Debug
  impl prints, and `str_ends_with` models Rust's `str::ends_with`;
* a token stream is an ordered finite sequence of token trees; a token tree
  is modelled by the only datum `join_spans` reads from it, its span
  (`tt.span()`);
* the build-time `cfg(procmacro2_semver_exempt)` flag is an explicit `Bool`
  parameter, and the external `Span::join` operation (present only under
  that flag) is an explicit `Span → Span → Option Span` parameter, so both
  build configurations are expressible in one development.
-/

/-- A source span, modelled by the byte range that proc-macro2's Debug
rendering exposes: `bytes(lo..hi)`. -/
structure Span where
  lo : Nat
  hi : Nat
deriving DecidableEq, Repr

/-- Model of `Span::call_site()`, the sentinel "no specific location" span.
In proc-macro2's fallback implementation this is the span with the empty
byte range at offset zero. -/
def Span.call_site : Span := ⟨0, 0⟩

/-- The character for a decimal digit `d < 10` (the catch-all arm is never
reached on the arguments `nat_digits_core` supplies). -/
def digit_char (d : Nat) : Char :=
  match d with
  | 0 => '0' | 1 => '1' | 2 => '2' | 3 => '3' | 4 => '4'
  | 5 => '5' | 6 => '6' | 7 => '7' | 8 => '8' | _ => '9'

/-- Fuelled decimal rendering of a natural number, most significant digit
first.  Any `fuel > n` is sufficient. -/
def nat_digits_core (fuel n : Nat) : List Char :=
  match fuel with
  | 0 => []
  | fuel + 1 =>
    if n < 10 then [digit_char n]
    else nat_digits_core fuel (n / 10) ++ [digit_char (n % 10)]

/-- The decimal digit characters of `n`, most significant first; models the
rendering of a byte offset inside proc-macro2's Debug output for a span. -/
def nat_digits (n : Nat) : List Char := nat_digits_core (n + 1) n

/-- The canonical textual signature of a span: the character sequence of
`format!("{:?}", span)`, which proc-macro2 renders as `bytes(lo..hi)`. -/
def span_debug (s : Span) : List Char :=
  ['b', 'y', 't', 'e', 's', '('] ++ nat_digits s.lo ++ ['.', '.'] ++
    nat_digits s.hi ++ [')']

/-- Model of Rust's `str::ends_with(pat)`: `pat` is a suffix of `s`. -/
def str_ends_with (s pat : List Char) : Bool :=
  pat.isSuffixOf s

/-- The character sequence of the string literal `"bytes(0..0)"` that
`join_spans` tests the Debug rendering against. -/
def degenerate_pattern : List Char :=
  ['b', 'y', 't', 'e', 's', '(', '0', '.', '.', '0', ')']

/-- The degenerate-span predicate of `join_spans`' `filter_map` closure: a
span is discarded exactly when its Debug rendering ends with
`"bytes(0..0)"`. -/
def is_degenerate (span : Span) : Bool :=
  str_ends_with (span_debug span) degenerate_pattern

/-- A token tree, restricted to the only datum `join_spans` reads from it:
its span (`tt.span()`). -/
structure TokenTree where
  span : Span
deriving DecidableEq, Repr

/-- The `tokens.into_iter().filter_map(..)` stage of `join_spans`: drop every
token tree whose span's Debug rendering ends with `"bytes(0..0)"`, keep the
spans of the others, in order. -/
def filter_spans (tokens : List TokenTree) : List Span :=
  tokens.filterMap (fun tt =>
    let span := tt.span
    let debug := span_debug span
    if str_ends_with debug degenerate_pattern then none else some span)

/-- One step of the join-capable fold:
`if let Some(span) = joined.join(next) { joined = span }` — on success the
accumulator becomes the joined span, on failure it is left unchanged. -/
def join_step (join : Span → Span → Option Span) (joined next : Span) : Span :=
  match join joined next with
  | some span => span
  | none => joined

/-- The function `join_spans(tokens)` from `src/spanned.rs`, parametrised by
the build flag `semver_exempt` (for `cfg(procmacro2_semver_exempt)`) and by
the external `Span::join` operation.  The filtered span sequence is folded:
empty yields `Span::call_site()`; otherwise the first span seeds the
accumulator and, under the join-capable build only, each later span is
join-stepped into it. -/
def join_spans (semver_exempt : Bool) (join : Span → Span → Option Span)
    (tokens : List TokenTree) : Span :=
  match filter_spans tokens with
  | [] => Span.call_site
  | first :: rest =>
    if semver_exempt then rest.foldl (join_step join) first
    else first

/-- Model of `<T as Spanned>::span`: lower the node to its token stream and
aggregate with `join_spans`.  A syntax node is represented by the token
stream it lowers to via `into_token_stream`. -/
def span_of (semver_exempt : Bool) (join : Span → Span → Option Span)
    (node : List TokenTree) : Span :=
  join_spans semver_exempt join node

/-- The concrete `Span::join` of proc-macro2's fallback implementation for
spans of one file: always succeeds, returning the convex hull of the two
byte ranges. -/
def Span.hull_join (a b : Span) : Option Span :=
  some ⟨min a.lo b.lo, max a.hi b.hi⟩

/-! ### Helper lemmas about the digit rendering -/

lemma digit_char_toNat (d : Nat) :
    48 ≤ (digit_char d).toNat ∧ (digit_char d).toNat ≤ 57 := by
  rcases d with _ | _ | _ | _ | _ | _ | _ | _ | _ | d
  all_goals first
  | decide
  | exact (by decide : 48 ≤ ('9').toNat ∧ ('9').toNat ≤ 57)

lemma digit_char_eq_zero_iff (d : Nat) : digit_char d = '0' ↔ d = 0 := by
  rcases d with _ | _ | _ | _ | _ | _ | _ | _ | _ | d
  all_goals first
  | decide
  | exact ⟨fun h => ((by decide : ('9' : Char) ≠ '0') h).elim,
      fun h => absurd h (by omega)⟩

lemma nat_digits_core_ne_nil (fuel n : Nat) (h : n < fuel) :
    nat_digits_core fuel n ≠ [] := by
  induction fuel generalizing n with
  | zero => omega
  | succ fuel _ =>
    unfold nat_digits_core
    split <;> simp

lemma nat_digits_core_mem (fuel n : Nat) (c : Char)
    (hc : c ∈ nat_digits_core fuel n) : 48 ≤ c.toNat ∧ c.toNat ≤ 57 := by
  induction fuel generalizing n with
  | zero => simp [nat_digits_core] at hc
  | succ fuel ih =>
    unfold nat_digits_core at hc
    split at hc
    · simp at hc
      exact hc ▸ digit_char_toNat n
    · rcases List.mem_append.mp hc with h | h
      · exact ih _ h
      · simp at h
        exact h ▸ digit_char_toNat (n % 10)

lemma nat_digits_core_eq_zero_iff (fuel n : Nat) (h : n < fuel) :
    nat_digits_core fuel n = ['0'] ↔ n = 0 := by
  induction fuel generalizing n with
  | zero => omega
  | succ fuel ih =>
    unfold nat_digits_core
    split
    · simpa using digit_char_eq_zero_iff n
    · constructor
      · intro heq
        have hne : nat_digits_core fuel (n / 10) ≠ [] :=
          nat_digits_core_ne_nil fuel (n / 10) (by omega)
        rcases List.exists_cons_of_ne_nil hne with ⟨d, ds, hds⟩
        rw [hds] at heq
        have := congrArg List.length heq
        simp at this
      · omega

lemma nat_digits_ne_nil (n : Nat) : nat_digits n ≠ [] :=
  nat_digits_core_ne_nil (n + 1) n (Nat.lt_succ_self n)

lemma nat_digits_mem (n : Nat) (c : Char) (hc : c ∈ nat_digits n) :
    48 ≤ c.toNat ∧ c.toNat ≤ 57 :=
  nat_digits_core_mem (n + 1) n c hc

lemma nat_digits_eq_zero_iff (n : Nat) : nat_digits n = ['0'] ↔ n = 0 :=
  nat_digits_core_eq_zero_iff (n + 1) n (Nat.lt_succ_self n)

/-- Steps a prefix relation through a reversed digit block: if the prefix
continues, after the digit `'0'`, with a character `c` that is not a digit,
then the digit block must be exactly `"0"` and the rest of the prefix moves
past it. -/
lemma prefix_digits_zero {n : Nat} {c : Char} {l tail : List Char}
    (hc : c.toNat < 48)
    (h : '0' :: c :: l <+: (nat_digits n).reverse ++ tail) :
    n = 0 ∧ c :: l <+: tail := by
  rcases List.exists_cons_of_ne_nil
      (mt List.reverse_eq_nil_iff.mp (nat_digits_ne_nil n)) with ⟨d, ds, hds⟩
  rw [hds, List.cons_append, List.cons_prefix_cons] at h
  obtain ⟨hd0, h⟩ := h
  cases ds with
  | nil =>
    have hdig : nat_digits n = ['0'] := by
      have : (nat_digits n).reverse = ['0'] := by rw [hds, ← hd0]
      simpa [List.reverse_eq_iff] using this
    exact ⟨(nat_digits_eq_zero_iff n).mp hdig, by simpa using h⟩
  | cons d2 ds2 =>
    rw [List.cons_append, List.cons_prefix_cons] at h
    obtain ⟨hcd, _⟩ := h
    have hd2 : d2 ∈ nat_digits n := by
      rw [← List.mem_reverse, hds]
      simp
    have := nat_digits_mem n d2 hd2
    rw [hcd] at hc
    omega

/-! ### Characterisation of the degenerate-span predicate -/

/-- A span's Debug rendering ends with `"bytes(0..0)"` exactly when its byte
range is the zero-offset empty range `0..0`. -/
lemma is_degenerate_iff (lo hi : Nat) :
    is_degenerate ⟨lo, hi⟩ = true ↔ lo = 0 ∧ hi = 0 := by
  constructor
  · intro h
    unfold is_degenerate str_ends_with at h
    rw [List.isSuffixOf_iff_suffix, ← List.reverse_prefix] at h
    have hrev : degenerate_pattern.reverse =
        [')', '0', '.', '.', '0', '(', 's', 'e', 't', 'y', 'b'] := by decide
    have hrev2 : (span_debug ⟨lo, hi⟩).reverse =
        ')' :: ((nat_digits hi).reverse ++
          ('.' :: '.' :: ((nat_digits lo).reverse ++
            ['(', 's', 'e', 't', 'y', 'b']))) := by
      simp [span_debug, List.reverse_append]
    rw [hrev, hrev2] at h
    rw [List.cons_prefix_cons] at h
    obtain ⟨-, h⟩ := h
    obtain ⟨hhi, h⟩ := prefix_digits_zero (by decide) h
    rw [List.cons_prefix_cons] at h
    obtain ⟨-, h⟩ := h
    rw [List.cons_prefix_cons] at h
    obtain ⟨-, h⟩ := h
    obtain ⟨hlo, -⟩ := prefix_digits_zero (by decide) h
    exact ⟨hlo, hhi⟩
  · rintro ⟨rfl, rfl⟩
    decide

/-! ### Helper lemmas about the filtering and folding stages -/

lemma filter_spans_cons (t : TokenTree) (ts : List TokenTree) :
    filter_spans (t :: ts) =
      if is_degenerate t.span then filter_spans ts
      else t.span :: filter_spans ts := by
  simp only [filter_spans, List.filterMap_cons, is_degenerate]
  by_cases h : str_ends_with (span_debug t.span) degenerate_pattern
  · simp [h]
  · simp [h]

lemma filter_spans_eq_filter (tokens : List TokenTree) :
    filter_spans tokens
      = (tokens.filter (fun tt => !is_degenerate tt.span)).map TokenTree.span := by
  induction tokens with
  | nil => rfl
  | cons t ts ih =>
    rw [filter_spans_cons, List.filter_cons]
    by_cases h : is_degenerate t.span
    · simp [h, ih]
    · simp [h, ih]

lemma filter_spans_eq_nil (tokens : List TokenTree)
    (h : ∀ tt ∈ tokens, is_degenerate tt.span = true) :
    filter_spans tokens = [] := by
  induction tokens with
  | nil => rfl
  | cons t ts ih =>
    rw [filter_spans_cons, if_pos (h t (List.mem_cons_self t ts))]
    exact ih (fun tt htt => h tt (List.mem_cons_of_mem t htt))

lemma foldl_join_step_none (join : Span → Span → Option Span) (a : Span)
    (l : List Span) (h : ∀ s ∈ l, join a s = none) :
    l.foldl (join_step join) a = a := by
  induction l with
  | nil => rfl
  | cons s l ih =>
    have hstep : join_step join a s = a := by
      unfold join_step
      rw [h s (List.mem_cons_self s l)]
    rw [List.foldl_cons, hstep]
    exact ih (fun s' hs' => h s' (List.mem_cons_of_mem s hs'))

/-! ### Claim theorems -/

/-- C1: for every syntax node whose lowered token sequence is empty, and for
every node all of whose tokens have degenerate spans (so the filtered
sequence is empty), `span_of` returns the sentinel call-site span — a
defined value — under both build strategies. -/
theorem spanned_C1_empty_or_degenerate_yields_sentinel
    (semver_exempt : Bool) (join : Span → Span → Option Span)
    (tokens : List TokenTree)
    (h : ∀ tt ∈ tokens, is_degenerate tt.span = true) :
    span_of semver_exempt join [] = Span.call_site ∧
    span_of semver_exempt join tokens = Span.call_site := by
  constructor
  · cases semver_exempt <;> rfl
  · unfold span_of join_spans
    rw [filter_spans_eq_nil tokens h]

theorem spanned_C1_witness :
    span_of true Span.hull_join [⟨⟨0, 0⟩⟩] = Span.call_site :=
  (spanned_C1_empty_or_degenerate_yields_sentinel true Span.hull_join
    [⟨⟨0, 0⟩⟩] (by decide)).2

/-- C2: under the join-capable strategy, for tokens carrying spans
`[(0,0)-degenerate, (5,10), (10,15)]` in that order, the degenerate token is
filtered out before aggregation, so `span_of` joins `(5,10)` with `(10,15)`
across it: any join operation sending that pair to `some j` makes `span_of`
return `j`, and the hull join returns `(5,15)`. -/
theorem spanned_C2_interleaved_degenerate_joins_across
    (join : Span → Span → Option Span) (j : Span)
    (h : join ⟨5, 10⟩ ⟨10, 15⟩ = some j) :
    span_of true join [⟨⟨0, 0⟩⟩, ⟨⟨5, 10⟩⟩, ⟨⟨10, 15⟩⟩] = j ∧
    span_of true Span.hull_join [⟨⟨0, 0⟩⟩, ⟨⟨5, 10⟩⟩, ⟨⟨10, 15⟩⟩] = ⟨5, 15⟩ := by
  constructor
  · have hf : filter_spans [⟨⟨0, 0⟩⟩, ⟨⟨5, 10⟩⟩, ⟨⟨10, 15⟩⟩]
        = [⟨5, 10⟩, ⟨10, 15⟩] := by decide
    unfold span_of join_spans
    rw [hf]
    simp [join_step, h]
  · decide

theorem spanned_C2_witness :
    span_of true Span.hull_join [⟨⟨0, 0⟩⟩, ⟨⟨5, 10⟩⟩, ⟨⟨10, 15⟩⟩] = ⟨5, 15⟩ :=
  (spanned_C2_interleaved_degenerate_joins_across Span.hull_join ⟨5, 15⟩
    (by decide)).1

/-- C3: under the join-capable strategy, whenever a pairwise join fails the
fold's step leaves the accumulator unchanged, and the fold simply proceeds
to the remaining spans; a failed join never aborts the fold (the fold and
`span_of` are total functions by construction). -/
theorem spanned_C3_failed_join_absorbed
    (join : Span → Span → Option Span) (joined next : Span)
    (rest : List Span) (h : join joined next = none) :
    join_step join joined next = joined ∧
    (next :: rest).foldl (join_step join) joined
      = rest.foldl (join_step join) joined := by
  have hstep : join_step join joined next = joined := by
    unfold join_step
    rw [h]
  exact ⟨hstep, by rw [List.foldl_cons, hstep]⟩

theorem spanned_C3_witness :
    join_step (fun _ _ => none) ⟨1, 2⟩ ⟨3, 4⟩ = ⟨1, 2⟩ :=
  (spanned_C3_failed_join_absorbed (fun _ _ => none) ⟨1, 2⟩ ⟨3, 4⟩ []
    rfl).1

/-- C4: under the first-only strategy, for every node whose filtered span
sequence is non-empty, `span_of` returns exactly the first non-degenerate
span and ignores all subsequent ones; in particular for spans
`[(0,0)-degenerate, (5,10), (10,15)]` it returns `(5,10)`. -/
theorem spanned_C4_first_only_returns_first
    (join : Span → Span → Option Span) (tokens : List TokenTree)
    (first : Span) (rest : List Span)
    (h : filter_spans tokens = first :: rest) :
    span_of false join tokens = first ∧
    span_of false join [⟨⟨0, 0⟩⟩, ⟨⟨5, 10⟩⟩, ⟨⟨10, 15⟩⟩] = ⟨5, 10⟩ := by
  constructor
  · unfold span_of join_spans
    rw [h]
    rfl
  · rfl

theorem spanned_C4_witness :
    span_of false Span.hull_join [⟨⟨0, 0⟩⟩, ⟨⟨5, 10⟩⟩, ⟨⟨10, 15⟩⟩] = ⟨5, 10⟩ :=
  (spanned_C4_first_only_returns_first Span.hull_join
    [⟨⟨0, 0⟩⟩, ⟨⟨5, 10⟩⟩, ⟨⟨10, 15⟩⟩] ⟨5, 10⟩ [⟨10, 15⟩] (by decide)).1

/-- C5: for every node lowering to exactly one token whose span is
non-degenerate, `span_of` returns that span exactly, under both the
join-capable and the first-only build strategies. -/
theorem spanned_C5_single_token_span
    (semver_exempt : Bool) (join : Span → Span → Option Span)
    (tt : TokenTree) (h : is_degenerate tt.span = false) :
    span_of semver_exempt join [tt] = tt.span := by
  have hf : filter_spans [tt] = [tt.span] := by
    rw [filter_spans_cons, if_neg (by simp [h])]
    rfl
  unfold span_of join_spans
  rw [hf]
  cases semver_exempt <;> rfl

theorem spanned_C5_witness :
    span_of true Span.hull_join [⟨⟨5, 10⟩⟩] = ⟨5, 10⟩ :=
  spanned_C5_single_token_span true Span.hull_join ⟨⟨5, 10⟩⟩ (by decide)

/-- C6: the degenerate-span filter is a pure predicate on a token's span: a
token is discarded if and only if the span's textual signature ends with
`"bytes(0..0)"`, and all other tokens are kept, in their original order
(the filtered output is the span projection of the order-preserving
filter). -/
theorem spanned_C6_filter_is_pure_predicate (tokens : List TokenTree) :
    filter_spans tokens
      = (tokens.filter
          (fun tt => !str_ends_with (span_debug tt.span) degenerate_pattern)).map
          TokenTree.span ∧
    ∀ s : Span, is_degenerate s = str_ends_with (span_debug s) degenerate_pattern :=
  ⟨filter_spans_eq_filter tokens, fun _ => rfl⟩

/-- C8: `span_of` is deterministic: two calls with the same node and the
same build configuration (strategy flag and join operation) return identical
results; in the embedding `span_of` is a pure function of its arguments,
with no hidden state. -/
theorem spanned_C8_deterministic
    (semver_exempt : Bool) (join : Span → Span → Option Span)
    (node : List TokenTree) (r₁ r₂ : Span)
    (h₁ : r₁ = span_of semver_exempt join node)
    (h₂ : r₂ = span_of semver_exempt join node) :
    r₁ = r₂ :=
  h₁.trans h₂.symm

theorem spanned_C8_witness :
    (⟨5, 10⟩ : Span) = ⟨5, 10⟩ :=
  spanned_C8_deterministic true Span.hull_join [⟨⟨5, 10⟩⟩] ⟨5, 10⟩ ⟨5, 10⟩
    (by decide) (by decide)

/-- C9: under the join-capable strategy, if every pairwise join attempted
during the fold fails (the accumulator stays the first filtered span, so the
attempted pairs are exactly the first span against each later one), the
result equals the first span of the filtered sequence — on such inputs the
join-capable and first-only strategies agree. -/
theorem spanned_C9_all_joins_fail_equals_first_only
    (join : Span → Span → Option Span) (tokens : List TokenTree)
    (first : Span) (rest : List Span)
    (hf : filter_spans tokens = first :: rest)
    (h : ∀ s ∈ rest, join first s = none) :
    span_of true join tokens = first ∧
    span_of true join tokens = span_of false join tokens := by
  have h1 : span_of true join tokens = first := by
    unfold span_of join_spans
    rw [hf]
    simpa using foldl_join_step_none join first rest h
  have h2 : span_of false join tokens = first := by
    unfold span_of join_spans
    rw [hf]
    rfl
  exact ⟨h1, h1.trans h2.symm⟩

theorem spanned_C9_witness :
    span_of true (fun _ _ => none) [⟨⟨5, 10⟩⟩, ⟨⟨10, 15⟩⟩] = ⟨5, 10⟩ :=
  (spanned_C9_all_joins_fail_equals_first_only (fun _ _ => none)
    [⟨⟨5, 10⟩⟩, ⟨⟨10, 15⟩⟩] ⟨5, 10⟩ [⟨10, 15⟩] (by decide) (by decide)).1

/-- C10: the degenerate filter only recognizes the zero-offset empty range:
a span is degenerate exactly when its byte range is `0..0`, so a zero-length
span at a nonzero offset such as `bytes(5..5)` is not filtered and
participates in aggregation as a real span. -/
theorem spanned_C10_nonzero_offset_empty_span_kept (s : Span) :
    (is_degenerate s = true ↔ s.lo = 0 ∧ s.hi = 0) ∧
    is_degenerate ⟨5, 5⟩ = false ∧
    filter_spans [⟨⟨0, 0⟩⟩, ⟨⟨5, 5⟩⟩, ⟨⟨10, 15⟩⟩] = [⟨5, 5⟩, ⟨10, 15⟩] ∧
    span_of true Span.hull_join [⟨⟨0, 0⟩⟩, ⟨⟨5, 5⟩⟩, ⟨⟨10, 15⟩⟩] = ⟨5, 15⟩ := by
  refine ⟨?_, by decide, by decide, by decide⟩
  cases s with
  | mk lo hi => exact is_degenerate_iff lo hi
